import Mathlib

/-!
A shallow embedding of the workflow state manager of the Siren repository
(src/main.tsx, class StateManager), with theorems about its reconciliation
algorithm (initializeWorkflowState / reEnumerateMarkdownFiles) and the node
lifecycle operations (toggleNodeCollapse, updateNodeSize, ...).

JavaScript numbers that only ever hold integer values are modelled as Int
or Nat carrying the exact value of the float64; wherever the program
performs an arithmetic step whose exact result may not be representable
(parseInt's conversion of the parsed digits to a Number, `Math.max(..) + 1`,
and the `nextNodeId + index` additions), the model applies the IEEE-754
binary64 rounding `flNat`/`fl` (53-bit significand, ties to even) to the
exact result, so that e.g. an existing id of 2^53 makes `max + 1` round
back to 2^53 exactly as in JavaScript.  `parseInt` and
`Number.prototype.toString` are modelled explicitly below
(jsParseInt / intToString).  Asynchronous calls that can fail are
modelled by passing the outcome of each external call as an argument
(Except for the listing call, a Bool for the persistence write).
-/

namespace Siren

/-- 2D coordinate `{x, y}` (src/main.tsx, NodeState.position). -/
structure Position where
  x : Int
  y : Int
deriving DecidableEq, Repr

/-- Width/height pair `{width, height}` (src/main.tsx, NodeState.size). -/
structure Size where
  width : Int
  height : Int
deriving DecidableEq, Repr

/-- NodeState.minDimensions from src/main.tsx. -/
structure MinDimensions where
  width : Int
  height : Int
  collapsedWidth : Int
  collapsedHeight : Int
deriving DecidableEq, Repr

/-- NodeState.data from src/main.tsx: label and markdown path. -/
structure NodeData where
  label : String
  markdownPath : String
deriving DecidableEq, Repr

/-- interface NodeState from src/main.tsx.  The optional TS field
`isOrphaned?: boolean` is modelled as Bool (undefined behaves as false in
every use site). -/
structure NodeState where
  id : String
  position : Position
  size : Size
  isCollapsed : Bool
  expandedSize : Option Size
  minDimensions : MinDimensions
  data : NodeData
  isOrphaned : Bool
deriving DecidableEq, Repr

/-- An edge record; reconciliation never inspects edges, so only identity
fields are modelled. -/
structure GraphEdge where
  id : String
  source : String
  target : String
  label : String
deriving DecidableEq, Repr

/-- interface WorkflowState from src/main.tsx. -/
structure WorkflowState where
  nodes : List NodeState
  edges : List GraphEdge
  lastSaved : String
  version : String
deriving DecidableEq, Repr

/-! ### JavaScript parseInt and integer toString -/

/-- Value of a decimal digit character. -/
def digitVal (c : Char) : Nat := c.toNat - 48

/-- Accumulating parse of leading decimal digits, stopping at the first
non-digit; `none` means no digit was consumed (parseInt returns NaN). -/
def parseDecDigits : List Char → Option Nat → Option Nat
  | [], acc => acc
  | c :: cs, acc =>
    if c.isDigit then parseDecDigits cs (some (10 * acc.getD 0 + digitVal c)) else acc

def isHexDigitChar (c : Char) : Bool :=
  c.isDigit || ('a' ≤ c && c ≤ 'f') || ('A' ≤ c && c ≤ 'F')

def hexDigitVal (c : Char) : Nat :=
  if c.isDigit then c.toNat - 48
  else if 'a' ≤ c && c ≤ 'f' then c.toNat - 87
  else c.toNat - 55

/-- Accumulating parse of leading hex digits (for the `0x` form of parseInt). -/
def parseHexDigits : List Char → Option Nat → Option Nat
  | [], acc => acc
  | c :: cs, acc =>
    if isHexDigitChar c then parseHexDigits cs (some (16 * acc.getD 0 + hexDigitVal c)) else acc

/-- Strip an optional leading sign, returning the sign as -1 or 1. -/
def stripSign (cs : List Char) : Int × List Char :=
  match cs with
  | [] => (1, [])
  | c :: rest => if c = '-' then (-1, rest) else if c = '+' then (1, rest) else (1, c :: rest)

/-- Does the (sign-stripped) input select hexadecimal parsing (`0x`/`0X`)? -/
def hasRadixMark : List Char → Bool
  | c :: x :: _ => c = '0' && (x = 'x' || x = 'X')
  | _ => false

/-- Bit length of a natural number (0 for 0), with explicit fuel
(`fuel > n` suffices) so the definition is structural and computes by
`rfl`/`decide`. -/
def bitLenF : Nat → Nat → Nat
  | 0, _ => 0
  | fuel + 1, n => if n = 0 then 0 else bitLenF fuel (n / 2) + 1

/-- Round a natural number to the nearest IEEE-754 binary64 value (53-bit
significand, round half to even), returned as its exact integer value.
Exact for n ≤ 2^53 = 9007199254740992; e.g. flNat (2^53 + 1) = 2^53.
Models the float64 results of parseInt, of `Math.max(..) + 1` and of the
`nextNodeId + index` additions in the id pipeline. -/
def flNat (n : Nat) : Nat :=
  let b := bitLenF (n + 1) n
  if b ≤ 53 then n
  else
    let s := b - 53
    let q := n / 2 ^ s
    let r := n % 2 ^ s
    if 2 * r < 2 ^ s then q * 2 ^ s
    else if 2 ^ s < 2 * r then (q + 1) * 2 ^ s
    else (if q % 2 = 0 then q else q + 1) * 2 ^ s

/-- flNat extended to integers by sign symmetry (binary64 rounding is
symmetric around zero). -/
def fl (i : Int) : Int :=
  if i < 0 then -((flNat i.natAbs : Nat) : Int) else ((flNat i.natAbs : Nat) : Int)

/-- JavaScript `parseInt(s)` (radix argument omitted), on the character list
of the input: skip whitespace, optional sign, `0x` selects hex, otherwise
leading decimal digits; the parsed mathematical integer is converted to a
Number, i.e. rounded to binary64 (flNat); `none` models NaN. -/
def jsParseIntChars (cs0 : List Char) : Option Int :=
  let cs := cs0.dropWhile Char.isWhitespace
  let sc := stripSign cs
  let mag := if hasRadixMark sc.2 then parseHexDigits (sc.2.drop 2) none
             else parseDecDigits sc.2 none
  mag.map (fun (n : Nat) => sc.1 * ((flNat n : Nat) : Int))

/-- JavaScript `parseInt(s)`; `none` models NaN. -/
def jsParseInt (s : String) : Option Int := jsParseIntChars s.data

/-- Big-endian decimal digit characters of `n`, with explicit fuel
(`fuel > n` suffices) so that the definition is structural and computes
by `rfl`/`decide`. -/
def natDigitsF : Nat → Nat → List Char
  | 0, _ => []
  | fuel + 1, n =>
    if n < 10 then [Char.ofNat (48 + n)]
    else natDigitsF fuel (n / 10) ++ [Char.ofNat (48 + n % 10)]

/-- Decimal rendering of a natural number (JS `Number.prototype.toString`). -/
def natToString (n : Nat) : String := String.mk (natDigitsF (n + 1) n)

/-- Decimal rendering of an integer: JS `Number.prototype.toString` on an
integral value of magnitude below 10^21.  At 1e21 and above JavaScript
switches to exponential notation, which is outside the modelled range:
every theorem in this file applies this function only to values of
magnitude at most 2^53 = 9007199254740992 < 10^21, where JS renders the
plain decimal digits produced here. -/
def intToString (i : Int) : String :=
  if i < 0 then String.mk ('-' :: natDigitsF (i.natAbs + 1) i.natAbs)
  else natToString i.toNat

/-! #### Facts about digit characters -/

theorem digitChar_spec (d : Nat) (h : d < 10) :
    (Char.ofNat (48 + d)).isDigit = true ∧
    digitVal (Char.ofNat (48 + d)) = d ∧
    (Char.ofNat (48 + d)).isWhitespace = false ∧
    Char.ofNat (48 + d) ≠ '-' ∧
    Char.ofNat (48 + d) ≠ '+' := by
  interval_cases d <;> refine ⟨by decide, by decide, by decide, by decide, by decide⟩

theorem digitChar_ne_zero (d : Nat) (h1 : 1 ≤ d) (h : d < 10) :
    Char.ofNat (48 + d) ≠ '0' := by
  interval_cases d <;> decide

/-! #### Facts about natDigitsF -/

theorem natDigitsF_digits (fuel n : Nat) (h : n < fuel) :
    ∀ c ∈ natDigitsF fuel n, ∃ d, d < 10 ∧ c = Char.ofNat (48 + d) := by
  induction fuel generalizing n with
  | zero => omega
  | succ fuel ih =>
    intro c hc
    by_cases h10 : n < 10
    · simp [natDigitsF, h10] at hc
      exact ⟨n, h10, hc⟩
    · simp [natDigitsF, h10] at hc
      rcases hc with hc | hc
      · exact ih (n / 10) (by omega) c hc
      · exact ⟨n % 10, by omega, hc⟩

theorem natDigitsF_eval (fuel n : Nat) (h : n < fuel) :
    (natDigitsF fuel n).foldl (fun a c => 10 * a + digitVal c) 0 = n := by
  induction fuel generalizing n with
  | zero => omega
  | succ fuel ih =>
    by_cases h10 : n < 10
    · have hd := (digitChar_spec n h10).2.1
      simp [natDigitsF, h10, hd]
    · have hrec := ih (n / 10) (by omega)
      have hd := (digitChar_spec (n % 10) (by omega)).2.1
      simp [natDigitsF, h10, List.foldl_append, hrec, hd]
      omega

theorem natDigitsF_head_pos (fuel n : Nat) (h : n < fuel) (h1 : 0 < n) :
    ∃ d cs, 0 < d ∧ d < 10 ∧ natDigitsF fuel n = Char.ofNat (48 + d) :: cs := by
  induction fuel generalizing n with
  | zero => omega
  | succ fuel ih =>
    by_cases h10 : n < 10
    · exact ⟨n, [], h1, h10, by simp [natDigitsF, h10]⟩
    · obtain ⟨d, cs, hd0, hd10, heq⟩ := ih (n / 10) (by omega) (by omega)
      exact ⟨d, cs ++ [Char.ofNat (48 + n % 10)], hd0, hd10, by
        simp [natDigitsF, h10, heq]⟩

theorem natDigitsF_zero (fuel : Nat) (h : 0 < fuel) : natDigitsF fuel 0 = ['0'] := by
  cases fuel with
  | zero => omega
  | succ f => simp [natDigitsF]

/-! #### Facts about binary64 rounding -/

theorem bitLenF_le (fuel n k : Nat) (hf : n < fuel) (h : n < 2 ^ k) :
    bitLenF fuel n ≤ k := by
  induction fuel generalizing n k with
  | zero => omega
  | succ fuel ih =>
    by_cases h0 : n = 0
    · simp [bitLenF, h0]
    · cases k with
      | zero =>
        simp at h
        omega
      | succ k2 =>
        have h2 : (2 : Nat) ^ (k2 + 1) = 2 * 2 ^ k2 := by rw [pow_succ]; ring
        have hdiv : n / 2 < 2 ^ k2 := by omega
        have hrec := ih (n / 2) k2 (by omega) hdiv
        rw [bitLenF, if_neg h0]
        omega

theorem flNat_eq_self (n : Nat) (h : n ≤ 9007199254740992) : flNat n = n := by
  rcases Nat.lt_or_ge n 9007199254740992 with hlt | hge
  · have hb : bitLenF (n + 1) n ≤ 53 :=
      bitLenF_le (n + 1) n 53 (by omega) (by norm_num; omega)
    simp [flNat, hb]
  · have hn : n = 9007199254740992 := by omega
    subst hn
    decide

theorem fl_eq_self (i : Int) (h : i.natAbs ≤ 9007199254740992) : fl i = i := by
  unfold fl
  split
  · rw [flNat_eq_self _ h]
    omega
  · rw [flNat_eq_self _ h]
    omega

/-! #### parseDecDigits on all-digit inputs -/

theorem parseDecDigits_some (cs : List Char) (hall : ∀ c ∈ cs, c.isDigit = true) :
    ∀ a, parseDecDigits cs (some a) =
      some (cs.foldl (fun x c => 10 * x + digitVal c) a) := by
  induction cs with
  | nil => intro a; rfl
  | cons c rest ih =>
    intro a
    have hc : c.isDigit = true := hall c (by simp)
    simp only [parseDecDigits, hc, if_pos, Option.getD_some, List.foldl_cons]
    exact ih (fun x hx => hall x (by simp [hx])) _

theorem parseDecDigits_none_cons (c : Char) (rest : List Char) (hc : c.isDigit = true)
    (hall : ∀ x ∈ rest, x.isDigit = true) :
    parseDecDigits (c :: rest) none =
      some ((c :: rest).foldl (fun x k => 10 * x + digitVal k) 0) := by
  simp only [parseDecDigits, hc, if_pos, Option.getD_none, List.foldl_cons]
  exact parseDecDigits_some rest hall _

/-! #### Round trip: jsParseInt ∘ intToString -/

theorem jsParseIntChars_digits (c : Char) (cs : List Char)
    (hc : ∃ d, d < 10 ∧ c = Char.ofNat (48 + d))
    (hne0 : c ≠ '0' ∨ cs = [])
    (hall : ∀ x ∈ c :: cs, x.isDigit = true) :
    jsParseIntChars (c :: cs) =
      some ((flNat ((c :: cs).foldl (fun x k => 10 * x + digitVal k) 0) : Nat) : Int) := by
  obtain ⟨d, hd, rfl⟩ := hc
  have spec := digitChar_spec d hd
  have hmark : hasRadixMark (Char.ofNat (48 + d) :: cs) = false := by
    cases cs with
    | nil => rfl
    | cons x rest =>
      rcases hne0 with hne0 | hne0
      · simp [hasRadixMark, hne0]
      · exact absurd hne0 (by simp)
  simp only [jsParseIntChars]
  rw [List.dropWhile_cons_of_neg (by simp [spec.2.2.1])]
  rw [show stripSign (Char.ofNat (48 + d) :: cs) = (1, Char.ofNat (48 + d) :: cs) by
    simp [stripSign, spec.2.2.2.1, spec.2.2.2.2]]
  simp only [hmark, Bool.false_eq_true, ite_false]
  rw [parseDecDigits_none_cons _ _ (hall _ (by simp)) (fun x hx => hall x (by simp [hx]))]
  simp

theorem jsParseIntChars_neg_digits (c : Char) (cs : List Char)
    (hc : ∃ d, d < 10 ∧ c = Char.ofNat (48 + d))
    (hne0 : c ≠ '0' ∨ cs = [])
    (hall : ∀ x ∈ c :: cs, x.isDigit = true) :
    jsParseIntChars ('-' :: c :: cs) =
      some (-((flNat ((c :: cs).foldl (fun x k => 10 * x + digitVal k) 0) : Nat) : Int)) := by
  obtain ⟨d, hd, rfl⟩ := hc
  have spec := digitChar_spec d hd
  have hmark : hasRadixMark (Char.ofNat (48 + d) :: cs) = false := by
    cases cs with
    | nil => rfl
    | cons x rest =>
      rcases hne0 with hne0 | hne0
      · simp [hasRadixMark, hne0]
      · exact absurd hne0 (by simp)
  simp only [jsParseIntChars]
  rw [List.dropWhile_cons_of_neg (by decide)]
  rw [show stripSign ('-' :: Char.ofNat (48 + d) :: cs) = (-1, Char.ofNat (48 + d) :: cs) by
    simp [stripSign]]
  simp only [hmark, Bool.false_eq_true, ite_false]
  rw [parseDecDigits_none_cons _ _ (hall _ (by simp)) (fun x hx => hall x (by simp [hx]))]
  simp

theorem jsParseInt_mk (l : List Char) : jsParseInt (String.mk l) = jsParseIntChars l := rfl

theorem jsParseInt_natToString (n : Nat) (h53 : n ≤ 9007199254740992) :
    jsParseInt (natToString n) = some (n : Int) := by
  have hall : ∀ c ∈ natDigitsF (n + 1) n, c.isDigit = true := fun c hc => by
    obtain ⟨d, hd, rfl⟩ := natDigitsF_digits (n + 1) n (by omega) c hc
    exact (digitChar_spec d hd).1
  rcases Nat.eq_zero_or_pos n with h0 | hpos
  · subst h0; decide
  · obtain ⟨d, cs, hd0, hd10, heq⟩ := natDigitsF_head_pos (n + 1) n (by omega) hpos
    rw [natToString, jsParseInt_mk, heq]
    rw [jsParseIntChars_digits _ _ ⟨d, hd10, rfl⟩
      (Or.inl (digitChar_ne_zero d hd0 hd10))
      (by rw [← heq]; exact hall)]
    rw [show (Char.ofNat (48 + d) :: cs) = natDigitsF (n + 1) n from heq.symm]
    rw [natDigitsF_eval (n + 1) n (by omega)]
    rw [flNat_eq_self n h53]

theorem jsParseInt_intToString (i : Int) (h53 : i.natAbs ≤ 9007199254740992) :
    jsParseInt (intToString i) = some i := by
  by_cases hneg : i < 0
  · have hm : 0 < i.natAbs := by omega
    have hall : ∀ c ∈ natDigitsF (i.natAbs + 1) i.natAbs, c.isDigit = true := fun c hc => by
      obtain ⟨d, hd, rfl⟩ := natDigitsF_digits (i.natAbs + 1) i.natAbs (by omega) c hc
      exact (digitChar_spec d hd).1
    obtain ⟨d, cs, hd0, hd10, heq⟩ := natDigitsF_head_pos (i.natAbs + 1) i.natAbs (by omega) hm
    rw [intToString, if_pos hneg, jsParseInt_mk, heq]
    rw [jsParseIntChars_neg_digits _ _ ⟨d, hd10, rfl⟩
      (Or.inl (digitChar_ne_zero d hd0 hd10))
      (by rw [← heq]; exact hall)]
    rw [show (Char.ofNat (48 + d) :: cs) = natDigitsF (i.natAbs + 1) i.natAbs from heq.symm]
    rw [natDigitsF_eval (i.natAbs + 1) i.natAbs (by omega)]
    rw [flNat_eq_self i.natAbs h53]
    congr 1
    omega
  · rw [intToString, if_neg hneg, jsParseInt_natToString i.toNat (by omega)]
    congr 1
    omega

theorem intToString_injective (i j : Int) (hi53 : i.natAbs ≤ 9007199254740992)
    (hj53 : j.natAbs ≤ 9007199254740992) (h : intToString i = intToString j) : i = j := by
  have hi := jsParseInt_intToString i hi53
  rw [h, jsParseInt_intToString j hj53] at hi
  exact (Option.some.injEq _ _).mp hi.symm

/-! ### Node lifecycle operations (src/main.tsx, StateManager)

The TS methods look a node up with `this.state.nodes.find(...)` and mutate
the found object in place; this is modelled by rewriting the first matching
element of the node list. -/

/-- Apply `f` to the first node whose id matches; identity when absent
(models in-place mutation of the object returned by `find`). -/
def updateFirstNode (nodes : List NodeState) (nodeId : String) (f : NodeState → NodeState) :
    List NodeState :=
  match nodes with
  | [] => []
  | n :: rest => if n.id == nodeId then f n :: rest else n :: updateFirstNode rest nodeId f

/-- Drop the first node whose id matches; identity when absent
(models `findIndex` + `splice(index, 1)`). -/
def removeFirstNode (nodes : List NodeState) (nodeId : String) : List NodeState :=
  match nodes with
  | [] => []
  | n :: rest => if n.id == nodeId then rest else n :: removeFirstNode rest nodeId

/-- StateManager.updateNodePosition: silently no-ops when the id is absent. -/
def updateNodePosition (s : WorkflowState) (nodeId : String) (p : Position) : WorkflowState :=
  { s with nodes := updateFirstNode s.nodes nodeId (fun n => { n with position := p }) }

/-- The per-node effect of StateManager.updateNodeSize: set `size`, and
remember it as `expandedSize` only when the node is not collapsed. -/
def resizeNode (sz : Size) (n : NodeState) : NodeState :=
  if n.isCollapsed then { n with size := sz }
  else { n with size := sz, expandedSize := some sz }

/-- StateManager.updateNodeSize: silently no-ops when the id is absent. -/
def updateNodeSize (s : WorkflowState) (nodeId : String) (sz : Size) : WorkflowState :=
  { s with nodes := updateFirstNode s.nodes nodeId (resizeNode sz) }

/-- StateManager.updateNodeMinDimensions: silently no-ops when the id is absent. -/
def updateNodeMinDimensions (s : WorkflowState) (nodeId : String) (d : MinDimensions) :
    WorkflowState :=
  { s with nodes := updateFirstNode s.nodes nodeId (fun n => { n with minDimensions := d }) }

/-- StateManager.removeNode: silently no-ops when the id is absent. -/
def removeNode (s : WorkflowState) (nodeId : String) : WorkflowState :=
  { s with nodes := removeFirstNode s.nodes nodeId }

/-- The per-node effect of StateManager.toggleNodeCollapse: flip
`isCollapsed`; on collapse cache the current size in `expandedSize` and
shrink to the collapsed minimums; on expand restore `expandedSize`, falling
back to the expanded minimums. -/
def toggleNode (n : NodeState) : NodeState :=
  if n.isCollapsed then
    { n with isCollapsed := false,
             size := n.expandedSize.getD
               { width := n.minDimensions.width, height := n.minDimensions.height } }
  else
    { n with isCollapsed := true,
             expandedSize := some n.size,
             size := { width := n.minDimensions.collapsedWidth,
                       height := n.minDimensions.collapsedHeight } }

/-- StateManager.toggleNodeCollapse: throws when the id is absent, otherwise
toggles the first matching node and returns `{ newSize, isCollapsed }`. -/
def toggleNodeCollapse (s : WorkflowState) (nodeId : String) :
    Except String (WorkflowState × Size × Bool) :=
  match s.nodes.find? (fun n => n.id == nodeId) with
  | none => Except.error ("Node " ++ nodeId ++ " not found in state")
  | some n =>
    let n1 := toggleNode n
    Except.ok ({ s with nodes := updateFirstNode s.nodes nodeId toggleNode },
               n1.size, n1.isCollapsed)

/-! ### Reconciliation (src/main.tsx, StateManager.initializeWorkflowState
and StateManager.reEnumerateMarkdownFiles) -/

/-- StateManager.enumerateMarkdownFiles: the fetch outcome is passed in; on
failure the catch block logs and returns the empty array. -/
def enumerateMarkdownFiles (listing : Except Unit (List String)) : List String :=
  match listing with
  | Except.ok files => files
  | Except.error _ => []

/-- StateManager.saveWorkflowConfig: the write outcome is passed in; on
failure the catch block logs and rethrows. -/
def saveWorkflowConfig (writeOk : Bool) (_config : WorkflowState) : Except String Unit :=
  if writeOk then Except.ok () else Except.error "Failed to save workflow config"

/-- The discovered document paths: `/workflows/${file}` for each listed file
(`markdownFiles.map(file => ..)`, used to build the `existingFiles` set). -/
def discoveredPaths (files : List String) : List String :=
  files.map (fun file => "/workflows/" ++ file)

/-- The availability pass on a single node:
`node.isOrphaned = !existingFiles.has(node.data.markdownPath)`. -/
def updAvail (files : List String) (n : NodeState) : NodeState :=
  { n with isOrphaned := !((discoveredPaths files).contains n.data.markdownPath) }

/-- The availability pass over all nodes (`nodes.forEach(...)`). -/
def markAvailability (files : List String) (nodes : List NodeState) : List NodeState :=
  nodes.map (updAvail files)

/-- The novelty pass: listed files whose derived path is not already the
`markdownPath` of some node
(`markdownFiles.filter(file => !existingPaths.has(..))`). -/
def newFilesOf (nodes : List NodeState) (files : List String) : List String :=
  files.filter
    (fun file => !((nodes.map (fun n => n.data.markdownPath)).contains ("/workflows/" ++ file)))

/-- StateManager.calculateGridPosition with its default arguments
(nodeWidth 250, nodeHeight 200, 3 columns, 50px padding on both axes). -/
def calculateGridPosition (index : Nat) : Position :=
  { x := 50 + ((index % 3 : Nat) : Int) * (250 + 50),
    y := 50 + ((index / 3 : Nat) : Int) * (200 + 50) }

/-- `word.charAt(0).toUpperCase() + word.slice(1)` (empty words stay empty). -/
def capitalizeWord (w : String) : String :=
  match w.data with
  | [] => ""
  | c :: cs => String.mk (c.toUpper :: cs)

/-- StateManager.generateLabelFromFilename: strip a trailing `.md`, split on
hyphens, capitalize each segment, rejoin with spaces. -/
def generateLabelFromFilename (filename : String) : String :=
  let base := if filename.endsWith ".md" then filename.dropRight 3 else filename
  String.intercalate " " ((base.splitOn "-").map capitalizeWord)

/-- The node literal built for a newly discovered file inside the novelty
loops of initializeWorkflowState / reEnumerateMarkdownFiles. -/
def mkNewNode (nodeId : String) (pos : Position) (file : String) : NodeState :=
  { id := nodeId
    position := pos
    size := { width := 250, height := 200 }
    isCollapsed := true
    expandedSize := none
    minDimensions := { width := 250, height := 200, collapsedWidth := 180, collapsedHeight := 50 }
    data := { label := generateLabelFromFilename file, markdownPath := "/workflows/" ++ file }
    isOrphaned := false }

/-- The novelty loop `newFiles.forEach((file, index) => { ...; nodes.push(newNode) })`.
The grid index is `nodes.length + index`, read from the array that grows by
one on every iteration, so it advances by 2 per new node.  The id is
`(nextNodeId + index).toString()`: a float64 addition (hence the binary64
rounding `fl` of the exact sum) rendered in decimal. -/
def addNewNodes (nextId : Int) : List NodeState → Nat → List String → List NodeState
  | nodes, _, [] => nodes
  | nodes, idx, file :: rest =>
    addNewNodes nextId
      (nodes ++ [mkNewNode (intToString (fl (nextId + (idx : Int))))
        (calculateGridPosition (nodes.length + idx)) file])
      (idx + 1) rest

/-- `const existingIds = nodes.map(n => parseInt(n.id)).filter(id => !isNaN(id));
nextNodeId = existingIds.length > 0 ? Math.max(...existingIds) + 1 : 1`.
`Math.max` over float64 values is exact; the `+ 1` is a float64 addition,
hence the binary64 rounding `fl` of the exact sum (at a maximum id of 2^53
it rounds back to 2^53). -/
def nextNodeId (nodes : List NodeState) : Int :=
  match nodes.filterMap (fun n => jsParseInt n.id) with
  | [] => 1
  | x :: xs => fl (xs.foldl max x + 1)

/-- The value nextNodeId would take if the `Math.max(..) + 1` float64
addition were exact; nextNodeId coincides with it whenever the parsed ids
are small enough (nextNodeId_eq_exact). -/
def nextNodeIdExact (nodes : List NodeState) : Int :=
  match nodes.filterMap (fun n => jsParseInt n.id) with
  | [] => 1
  | x :: xs => xs.foldl max x + 1

/-- Nodes of the loaded config, or `[]` when absent (first run / load failure). -/
def cfgNodes (config : Option WorkflowState) : List NodeState :=
  match config with
  | some c => c.nodes
  | none => []

/-- Edges of the loaded config, or `[]` when absent. -/
def cfgEdges (config : Option WorkflowState) : List GraphEdge :=
  match config with
  | some c => c.edges
  | none => []

/-- StateManager.initializeWorkflowState.  `config` is the loaded workflow
config (None on first run), `listing` the outcome of the enumerate-files
call, `writeOk` the outcome of the config write, `now` the timestamp.
In the source `nextNodeId` starts at 1 and is only recomputed when a config
was loaded; `nextNodeId (cfgNodes config)` is that same value since
`nextNodeId [] = 1`.  A failing write propagates (the internal state is
never reached), modelled by `Except.error`. -/
def initializeWorkflowState (config : Option WorkflowState)
    (listing : Except Unit (List String)) (writeOk : Bool) (now : String) :
    Except String WorkflowState :=
  let markdownFiles := enumerateMarkdownFiles listing
  let nodes0 := cfgNodes config
  let nextId := nextNodeId nodes0
  let nodes1 := markAvailability markdownFiles nodes0
  let nf := newFilesOf nodes1 markdownFiles
  let nodes2 := addNewNodes nextId nodes1 0 nf
  let result : WorkflowState :=
    { nodes := nodes2, edges := cfgEdges config, lastSaved := now, version := "1.0.0" }
  if nf.length > 0 then
    match saveWorkflowConfig writeOk result with
    | Except.ok _ => Except.ok result
    | Except.error e => Except.error e
  else Except.ok result

/-- StateManager.reEnumerateMarkdownFiles on the current state.  Returns the
new state together with `newNodes` and `recoveredNodes` counts; the config
write always runs and a failing write propagates.  The source computes
`nextNodeId` after the availability pass and guards the novelty loop with
`if (newFiles.length > 0)`; appending an empty batch is that same no-op. -/
def reEnumerateMarkdownFiles (s : WorkflowState) (listing : Except Unit (List String))
    (writeOk : Bool) (now : String) : Except String (WorkflowState × Nat × Nat) :=
  let markdownFiles := enumerateMarkdownFiles listing
  let recovered := (s.nodes.filter
    (fun n => n.isOrphaned && (discoveredPaths markdownFiles).contains n.data.markdownPath)).length
  let nodes1 := markAvailability markdownFiles s.nodes
  let nf := newFilesOf nodes1 markdownFiles
  let nodes2 := addNewNodes (nextNodeId nodes1) nodes1 0 nf
  let result : WorkflowState :=
    { nodes := nodes2, edges := s.edges, lastSaved := now, version := s.version }
  match saveWorkflowConfig writeOk result with
  | Except.ok _ => Except.ok (result, nf.length, recovered)
  | Except.error e => Except.error e

/-- The pure node-level reconciliation shared by both entry points:
availability pass followed by the novelty loop. -/
def reconcileNodes (nodes : List NodeState) (files : List String) : List NodeState :=
  addNewNodes (nextNodeId nodes) (markAvailability files nodes) 0
    (newFilesOf (markAvailability files nodes) files)

/-! ### Helper lemmas -/

theorem contains_iff (l : List String) (a : String) : l.contains a = true ↔ a ∈ l := by
  simp

theorem map_eq_self_of {α : Type} (l : List α) (f : α → α) (h : ∀ a ∈ l, f a = a) :
    l.map f = l := by
  induction l with
  | nil => rfl
  | cons x xs ih => simp [h x (by simp), ih (fun a ha => h a (by simp [ha]))]

theorem updAvail_eq_self (files : List String) (n : NodeState)
    (h : n.isOrphaned = !((discoveredPaths files).contains n.data.markdownPath)) :
    updAvail files n = n := by
  cases n
  simp only [updAvail] at *
  simp_all

theorem markAvailability_length (files : List String) (ns : List NodeState) :
    (markAvailability files ns).length = ns.length := by
  simp [markAvailability]

theorem markAvailability_map_id (files : List String) (ns : List NodeState) :
    (markAvailability files ns).map (fun n => n.id) = ns.map (fun n => n.id) := by
  rw [markAvailability, List.map_map]
  rfl

theorem markAvailability_map_path (files : List String) (ns : List NodeState) :
    (markAvailability files ns).map (fun n => n.data.markdownPath)
      = ns.map (fun n => n.data.markdownPath) := by
  rw [markAvailability, List.map_map]
  rfl

theorem nextNodeId_markAvailability (files : List String) (ns : List NodeState) :
    nextNodeId (markAvailability files ns) = nextNodeId ns := by
  unfold nextNodeId
  rw [markAvailability, List.filterMap_map]
  rfl

theorem le_foldl_max (xs : List Int) : ∀ (a v : Int), v = a ∨ v ∈ xs → v ≤ xs.foldl max a := by
  induction xs with
  | nil =>
    intro a v h
    rcases h with rfl | h
    · exact le_refl v
    · cases h
  | cons y ys ih =>
    intro a v h
    rcases h with rfl | h
    · exact le_trans (le_max_left v y) (ih (max v y) _ (Or.inl rfl))
    · rcases List.mem_cons.mp h with rfl | h
      · exact le_trans (le_max_right a v) (ih (max a v) _ (Or.inl rfl))
      · exact ih (max a y) v (Or.inr h)

theorem foldl_max_mem (xs : List Int) : ∀ a, xs.foldl max a = a ∨ xs.foldl max a ∈ xs := by
  induction xs with
  | nil => intro a; exact Or.inl rfl
  | cons y ys ih =>
    intro a
    rcases ih (max a y) with h | h
    · rcases max_choice a y with hm | hm
      · left; rw [List.foldl_cons, h, hm]
      · right; rw [List.foldl_cons, h, hm]; exact List.mem_cons_self _ _
    · right; exact List.mem_cons_of_mem _ h

theorem parsed_lt_nextNodeIdExact (nodes : List NodeState) (n : NodeState) (hn : n ∈ nodes)
    (v : Int) (hv : jsParseInt n.id = some v) : v < nextNodeIdExact nodes := by
  have hmem : v ∈ nodes.filterMap (fun m => jsParseInt m.id) :=
    List.mem_filterMap.mpr ⟨n, hn, hv⟩
  unfold nextNodeIdExact
  cases hfm : nodes.filterMap (fun m => jsParseInt m.id) with
  | nil => rw [hfm] at hmem; cases hmem
  | cons x xs =>
    rw [hfm] at hmem
    have hle := le_foldl_max xs x v
      (by rcases List.mem_cons.mp hmem with h | h
          · exact Or.inl h
          · exact Or.inr h)
    show v < xs.foldl max x + 1
    omega

theorem nextNodeIdExact_attained (nodes : List NodeState)
    (h : ∃ n ∈ nodes, ∃ v, jsParseInt n.id = some v) :
    ∃ n ∈ nodes, jsParseInt n.id = some (nextNodeIdExact nodes - 1) := by
  obtain ⟨n, hn, v, hv⟩ := h
  have hmem : v ∈ nodes.filterMap (fun m => jsParseInt m.id) :=
    List.mem_filterMap.mpr ⟨n, hn, hv⟩
  unfold nextNodeIdExact
  cases hfm : nodes.filterMap (fun m => jsParseInt m.id) with
  | nil => rw [hfm] at hmem; cases hmem
  | cons x xs =>
    have hin : xs.foldl max x ∈ x :: xs := by
      rcases foldl_max_mem xs x with h | h
      · rw [h]; exact List.mem_cons_self _ _
      · exact List.mem_cons_of_mem _ h
    rw [← hfm] at hin
    obtain ⟨m, hm, hp⟩ := List.mem_filterMap.mp hin
    show ∃ n ∈ nodes, jsParseInt n.id = some (xs.foldl max x + 1 - 1)
    refine ⟨m, hm, ?_⟩
    rw [hp]
    congr 1
    omega

theorem nextNodeId_of_no_numeric (nodes : List NodeState)
    (h : ∀ n ∈ nodes, jsParseInt n.id = none) : nextNodeId nodes = 1 := by
  unfold nextNodeId
  rw [List.filterMap_eq_nil_iff.mpr h]

/-- The numeric-parseable ids of the graph, together with the size of the
incoming batch, stay far enough below 2^53 that every float64 step of the
id pipeline (`Math.max(..) + 1` and the per-node `+ index` additions) is
exact. -/
def parsedIdsSmall (ns : List NodeState) (L : Nat) : Prop :=
  L < 9007199254740992 ∧
    ∀ v ∈ ns.filterMap (fun n => jsParseInt n.id), v.natAbs + L < 9007199254740992

instance (ns : List NodeState) (L : Nat) : Decidable (parsedIdsSmall ns L) := by
  unfold parsedIdsSmall
  infer_instance

theorem nextNodeId_eq_exact (ns : List NodeState) (L : Nat) (h : parsedIdsSmall ns L) :
    nextNodeId ns = nextNodeIdExact ns := by
  obtain ⟨hL, hv⟩ := h
  unfold nextNodeId nextNodeIdExact
  cases hfm : ns.filterMap (fun n => jsParseInt n.id) with
  | nil => rfl
  | cons x xs =>
    have hmem : xs.foldl max x ∈ x :: xs := by
      rcases foldl_max_mem xs x with hm | hm
      · rw [hm]; exact List.mem_cons_self _ _
      · exact List.mem_cons_of_mem _ hm
    have hmax := hv _ (hfm ▸ hmem)
    show fl (xs.foldl max x + 1) = xs.foldl max x + 1
    exact fl_eq_self _ (by omega)

theorem nextNodeIdExact_add_small (ns : List NodeState) (L : Nat)
    (h : parsedIdsSmall ns L) :
    ∀ k : Nat, k ≤ L → (nextNodeIdExact ns + (k : Int)).natAbs ≤ 9007199254740992 := by
  obtain ⟨hL, hv⟩ := h
  intro k hk
  unfold nextNodeIdExact
  cases hfm : ns.filterMap (fun n => jsParseInt n.id) with
  | nil =>
    show ((1 : Int) + (k : Int)).natAbs ≤ 9007199254740992
    omega
  | cons x xs =>
    have hmem : xs.foldl max x ∈ x :: xs := by
      rcases foldl_max_mem xs x with hm | hm
      · rw [hm]; exact List.mem_cons_self _ _
      · exact List.mem_cons_of_mem _ hm
    have hmax := hv _ (hfm ▸ hmem)
    show (xs.foldl max x + 1 + (k : Int)).natAbs ≤ 9007199254740992
    omega

/-- The batch of nodes appended by the novelty loop, as a standalone list:
`baseLen` is the node-array length at loop entry plus the number of
iterations already run, `idx` the forEach index. -/
def newNodesFrom (nextId : Int) (baseLen idx : Nat) : List String → List NodeState
  | [] => []
  | file :: rest =>
    mkNewNode (intToString (fl (nextId + (idx : Int))))
        (calculateGridPosition (baseLen + idx)) file
      :: newNodesFrom nextId (baseLen + 1) (idx + 1) rest

theorem addNewNodes_eq (nextId : Int) :
    ∀ (fs : List String) (nodes : List NodeState) (idx : Nat),
      addNewNodes nextId nodes idx fs = nodes ++ newNodesFrom nextId nodes.length idx fs := by
  intro fs
  induction fs with
  | nil => intro nodes idx; simp [addNewNodes, newNodesFrom]
  | cons f rest ih =>
    intro nodes idx
    rw [addNewNodes, ih, newNodesFrom]
    simp [List.length_append, List.append_assoc]

theorem range_map_shift {α : Type} (g : Nat → α) (n : Nat) :
    (List.range (n + 1)).map g = g 0 :: (List.range n).map (fun k => g (k + 1)) := by
  rw [List.range_succ_eq_map, List.map_cons, List.map_map]
  rfl

theorem newNodesFrom_map_id (nextId : Int) :
    ∀ (fs : List String) (b i : Nat),
      (newNodesFrom nextId b i fs).map (fun n => n.id)
        = (List.range fs.length).map
            (fun k => intToString (fl (nextId + ((i + k : Nat) : Int)))) := by
  intro fs
  induction fs with
  | nil => intro b i; rfl
  | cons f rest ih =>
    intro b i
    rw [newNodesFrom, List.map_cons, List.length_cons, range_map_shift]
    congr 1
    rw [ih (b + 1) (i + 1)]
    apply List.map_congr_left
    intro k _
    congr 2
    omega

theorem newNodesFrom_map_position (nextId : Int) :
    ∀ (fs : List String) (b i : Nat),
      (newNodesFrom nextId b i fs).map (fun n => n.position)
        = (List.range fs.length).map (fun k => calculateGridPosition (b + i + 2 * k)) := by
  intro fs
  induction fs with
  | nil => intro b i; rfl
  | cons f rest ih =>
    intro b i
    rw [newNodesFrom, List.map_cons, List.length_cons, range_map_shift]
    congr 1
    rw [ih (b + 1) (i + 1)]
    apply List.map_congr_left
    intro k _
    congr 1
    omega

theorem newNodesFrom_length (nextId : Int) :
    ∀ (fs : List String) (b i : Nat), (newNodesFrom nextId b i fs).length = fs.length := by
  intro fs
  induction fs with
  | nil => intro b i; rfl
  | cons f rest ih => intro b i; simp [newNodesFrom, ih]

theorem mem_newNodesFrom (nextId : Int) :
    ∀ (fs : List String) (b i : Nat) (n : NodeState), n ∈ newNodesFrom nextId b i fs →
      ∃ f ∈ fs, ∃ s p, n = mkNewNode s p f := by
  intro fs
  induction fs with
  | nil => intro b i n h; cases h
  | cons f rest ih =>
    intro b i n h
    rcases List.mem_cons.mp h with rfl | h
    · exact ⟨f, by simp, _, _, rfl⟩
    · obtain ⟨g, hg, s, p, rfl⟩ := ih (b + 1) (i + 1) n h
      exact ⟨g, by simp [hg], s, p, rfl⟩

theorem newNodesFrom_path_mem (nextId : Int) :
    ∀ (fs : List String) (b i : Nat) (f : String), f ∈ fs →
      "/workflows/" ++ f ∈ (newNodesFrom nextId b i fs).map (fun n => n.data.markdownPath) := by
  intro fs
  induction fs with
  | nil => intro b i f h; cases h
  | cons g rest ih =>
    intro b i f h
    rcases List.mem_cons.mp h with rfl | h
    · exact List.mem_cons_self _ _
    · exact List.mem_cons_of_mem _ (ih (b + 1) (i + 1) f h)

/-! ### Structure of the reconciled node list -/

theorem reconcileNodes_decomp (ns : List NodeState) (fs : List String) :
    reconcileNodes ns fs = markAvailability fs ns ++
      newNodesFrom (nextNodeId ns) ns.length 0 (newFilesOf (markAvailability fs ns) fs) := by
  rw [reconcileNodes, addNewNodes_eq, markAvailability_length]

theorem mem_reconcileNodes_orphan (ns : List NodeState) (fs : List String) (n : NodeState)
    (hn : n ∈ reconcileNodes ns fs) :
    n.isOrphaned = !((discoveredPaths fs).contains n.data.markdownPath) := by
  rw [reconcileNodes_decomp] at hn
  rcases List.mem_append.mp hn with h | h
  · obtain ⟨m, _, rfl⟩ := List.mem_map.mp h
    rfl
  · obtain ⟨f, hf, s, p, rfl⟩ := mem_newNodesFrom _ _ _ _ _ h
    have hfs : f ∈ fs := (List.mem_filter.mp hf).1
    have hmem : "/workflows/" ++ f ∈ discoveredPaths fs := List.mem_map.mpr ⟨f, hfs, rfl⟩
    have hc : (discoveredPaths fs).contains ("/workflows/" ++ f) = true :=
      (contains_iff _ _).mpr hmem
    show (false : Bool) = !((discoveredPaths fs).contains ("/workflows/" ++ f))
    rw [hc]
    rfl

theorem reconcileNodes_avail_iff (ns : List NodeState) (fs : List String) (n : NodeState)
    (hn : n ∈ reconcileNodes ns fs) :
    (n.isOrphaned = false ↔ n.data.markdownPath ∈ discoveredPaths fs) := by
  rw [mem_reconcileNodes_orphan ns fs n hn]
  simp

theorem markAvailability_reconcile (ns : List NodeState) (fs : List String) :
    markAvailability fs (reconcileNodes ns fs) = reconcileNodes ns fs := by
  apply map_eq_self_of
  intro n hn
  exact updAvail_eq_self fs n (mem_reconcileNodes_orphan ns fs n hn)

theorem newFilesOf_reconcile (ns : List NodeState) (fs : List String) :
    newFilesOf (markAvailability fs (reconcileNodes ns fs)) fs = [] := by
  rw [markAvailability_reconcile, newFilesOf]
  apply List.filter_eq_nil_iff.mpr
  intro f hf
  have hmem : "/workflows/" ++ f ∈ (reconcileNodes ns fs).map (fun n => n.data.markdownPath) := by
    rw [reconcileNodes_decomp, List.map_append]
    cases hc : ((markAvailability fs ns).map (fun n => n.data.markdownPath)).contains
        ("/workflows/" ++ f) with
    | true => exact List.mem_append_left _ ((contains_iff _ _).mp hc)
    | false =>
      refine List.mem_append_right _ (newNodesFrom_path_mem _ _ _ _ f ?_)
      refine List.mem_filter.mpr ⟨hf, ?_⟩
      show (!(((markAvailability fs ns).map (fun n => n.data.markdownPath)).contains
        ("/workflows/" ++ f))) = true
      rw [hc]
      rfl
  have hc2 : ((reconcileNodes ns fs).map (fun n => n.data.markdownPath)).contains
      ("/workflows/" ++ f) = true := (contains_iff _ _).mpr hmem
  show ¬((!(((reconcileNodes ns fs).map (fun n => n.data.markdownPath)).contains
    ("/workflows/" ++ f))) = true)
  rw [hc2]
  decide

theorem reconcileNodes_idem (ns : List NodeState) (fs : List String) :
    reconcileNodes (reconcileNodes ns fs) fs = reconcileNodes ns fs := by
  rw [reconcileNodes, newFilesOf_reconcile, markAvailability_reconcile]
  rfl

theorem reconcileNodes_map_id (ns : List NodeState) (fs : List String) :
    (reconcileNodes ns fs).map (fun n => n.id)
      = ns.map (fun n => n.id) ++
        (List.range (newFilesOf (markAvailability fs ns) fs).length).map
          (fun (k : Nat) => intToString (fl (nextNodeId ns + (k : Int)))) := by
  rw [reconcileNodes_decomp, List.map_append, markAvailability_map_id, newNodesFrom_map_id]
  simp only [Nat.zero_add]

theorem reconcileNodes_drop (ns : List NodeState) (fs : List String) :
    (reconcileNodes ns fs).drop ns.length
      = newNodesFrom (nextNodeId ns) ns.length 0 (newFilesOf (markAvailability fs ns) fs) := by
  rw [reconcileNodes_decomp]
  rw [show ns.length = (markAvailability fs ns).length from (markAvailability_length fs ns).symm]
  rw [List.drop_left]

theorem reconcileNodes_new_ids (ns : List NodeState) (fs : List String) :
    ((reconcileNodes ns fs).drop ns.length).map (fun n => n.id)
      = (List.range (newFilesOf (markAvailability fs ns) fs).length).map
          (fun (k : Nat) => intToString (fl (nextNodeId ns + (k : Int)))) := by
  rw [reconcileNodes_drop, newNodesFrom_map_id]
  simp only [Nat.zero_add]

/-- Under the exactness bound, the new-id expressions lose their roundings:
the k-th new node id is the decimal rendering of nextNodeId + k, with
nextNodeId the exact max + 1 (or 1). -/
theorem reconcileNodes_new_ids_small (ns : List NodeState) (fs : List String)
    (h : parsedIdsSmall ns (newFilesOf (markAvailability fs ns) fs).length) :
    ((reconcileNodes ns fs).drop ns.length).map (fun n => n.id)
      = (List.range (newFilesOf (markAvailability fs ns) fs).length).map
          (fun (k : Nat) => intToString (nextNodeId ns + (k : Int))) := by
  rw [reconcileNodes_new_ids]
  apply List.map_congr_left
  intro k hk
  have hkL : k ≤ (newFilesOf (markAvailability fs ns) fs).length :=
    le_of_lt (List.mem_range.mp hk)
  rw [nextNodeId_eq_exact ns _ h]
  rw [fl_eq_self _ (nextNodeIdExact_add_small ns _ h k hkL)]

theorem reconcileNodes_new_positions (ns : List NodeState) (fs : List String) :
    ((reconcileNodes ns fs).drop ns.length).map (fun n => n.position)
      = (List.range (newFilesOf (markAvailability fs ns) fs).length).map
          (fun k => calculateGridPosition (ns.length + 2 * k)) := by
  rw [reconcileNodes_drop, newNodesFrom_map_position]
  apply List.map_congr_left
  intro k _
  congr 1

theorem reconcileNodes_new_avail (ns : List NodeState) (fs : List String) :
    ∀ n ∈ (reconcileNodes ns fs).drop ns.length, n.isOrphaned = false := by
  rw [reconcileNodes_drop]
  intro n hn
  obtain ⟨f, _, s, p, rfl⟩ := mem_newNodesFrom _ _ _ _ _ hn
  rfl

theorem reconcileNodes_nodup_small (ns : List NodeState) (fs : List String)
    (hsmall : parsedIdsSmall ns (newFilesOf (markAvailability fs ns) fs).length)
    (h : (ns.map (fun n => n.id)).Nodup) :
    ((reconcileNodes ns fs).map (fun n => n.id)).Nodup := by
  have hsplit : (reconcileNodes ns fs).map (fun n => n.id)
      = ns.map (fun n => n.id) ++ ((reconcileNodes ns fs).drop ns.length).map (fun n => n.id) := by
    rw [reconcileNodes_map_id, reconcileNodes_new_ids]
  rw [hsplit, reconcileNodes_new_ids_small ns fs hsmall]
  have habs : ∀ k : Nat, k ≤ (newFilesOf (markAvailability fs ns) fs).length →
      (nextNodeId ns + (k : Int)).natAbs ≤ 9007199254740992 := by
    intro k hk
    rw [nextNodeId_eq_exact ns _ hsmall]
    exact nextNodeIdExact_add_small ns _ hsmall k hk
  refine List.Nodup.append h ?_ ?_
  · refine List.Nodup.map_on ?_ (List.nodup_range _)
    intro a ha b hb hab
    have ha53 := habs a (le_of_lt (List.mem_range.mp ha))
    have hb53 := habs b (le_of_lt (List.mem_range.mp hb))
    have := intToString_injective _ _ ha53 hb53 hab
    omega
  · rw [List.disjoint_left]
    intro e he hmem
    obtain ⟨k, hkr, hk⟩ := List.mem_map.mp hmem
    obtain ⟨n, hn, hid⟩ := List.mem_map.mp he
    have hk53 : (nextNodeId ns + (k : Int)).natAbs ≤ 9007199254740992 :=
      habs k (le_of_lt (List.mem_range.mp hkr))
    have hparse : jsParseInt n.id = some (nextNodeId ns + (k : Int)) := by
      rw [hid, ← hk, jsParseInt_intToString _ hk53]
    have hlt : nextNodeId ns + (k : Int) < nextNodeIdExact ns :=
      parsed_lt_nextNodeIdExact ns n hn _ hparse
    rw [nextNodeId_eq_exact ns _ hsmall] at hlt
    omega

/-! ### Shapes of the two reconciliation entry points -/

theorem initializeWorkflowState_ok (config : Option WorkflowState)
    (listing : Except Unit (List String)) (writeOk : Bool) (now : String) (g1 : WorkflowState)
    (h : initializeWorkflowState config listing writeOk now = Except.ok g1) :
    g1 = { nodes := reconcileNodes (cfgNodes config) (enumerateMarkdownFiles listing),
           edges := cfgEdges config, lastSaved := now, version := "1.0.0" } := by
  simp only [initializeWorkflowState, saveWorkflowConfig, reconcileNodes] at h
  split at h
  · split at h
    · cases h
      rfl
    · cases h
  · cases h
    rfl

theorem initializeWorkflowState_no_new (config : Option WorkflowState)
    (listing : Except Unit (List String)) (writeOk : Bool) (now : String)
    (hnf : newFilesOf (markAvailability (enumerateMarkdownFiles listing) (cfgNodes config))
      (enumerateMarkdownFiles listing) = []) :
    initializeWorkflowState config listing writeOk now =
      Except.ok { nodes := reconcileNodes (cfgNodes config) (enumerateMarkdownFiles listing),
                  edges := cfgEdges config, lastSaved := now, version := "1.0.0" } := by
  simp only [initializeWorkflowState, reconcileNodes, hnf]
  rfl

theorem initializeWorkflowState_write_ok (config : Option WorkflowState)
    (listing : Except Unit (List String)) (now : String) :
    initializeWorkflowState config listing true now =
      Except.ok { nodes := reconcileNodes (cfgNodes config) (enumerateMarkdownFiles listing),
                  edges := cfgEdges config, lastSaved := now, version := "1.0.0" } := by
  simp only [initializeWorkflowState, saveWorkflowConfig, reconcileNodes]
  split <;> rfl

theorem reEnumerateMarkdownFiles_ok (s : WorkflowState) (listing : Except Unit (List String))
    (writeOk : Bool) (now : String) (out : WorkflowState × Nat × Nat)
    (h : reEnumerateMarkdownFiles s listing writeOk now = Except.ok out) :
    out.1 = { nodes := reconcileNodes s.nodes (enumerateMarkdownFiles listing),
              edges := s.edges, lastSaved := now, version := s.version }
    ∧ out.2.1 = (newFilesOf (markAvailability (enumerateMarkdownFiles listing) s.nodes)
        (enumerateMarkdownFiles listing)).length := by
  simp only [reEnumerateMarkdownFiles, saveWorkflowConfig, nextNodeId_markAvailability,
    reconcileNodes] at h
  split at h
  · cases h
    exact ⟨rfl, rfl⟩
  · cases h

theorem reEnumerateMarkdownFiles_write_ok (s : WorkflowState)
    (listing : Except Unit (List String)) (now : String) :
    reEnumerateMarkdownFiles s listing true now =
      Except.ok ({ nodes := reconcileNodes s.nodes (enumerateMarkdownFiles listing),
                   edges := s.edges, lastSaved := now, version := s.version },
        (newFilesOf (markAvailability (enumerateMarkdownFiles listing) s.nodes)
          (enumerateMarkdownFiles listing)).length,
        (s.nodes.filter (fun n => n.isOrphaned &&
          (discoveredPaths (enumerateMarkdownFiles listing)).contains n.data.markdownPath)).length)
    := by
  simp only [reEnumerateMarkdownFiles, saveWorkflowConfig, nextNodeId_markAvailability,
    reconcileNodes]
  rfl

/-! ### Lemmas about the node lifecycle operations -/

theorem toggleNode_id (n : NodeState) : (toggleNode n).id = n.id := by
  by_cases hc : n.isCollapsed <;> simp [toggleNode, hc]

theorem resizeNode_id (sz : Size) (n : NodeState) : (resizeNode sz n).id = n.id := by
  by_cases hc : n.isCollapsed <;> simp [resizeNode, hc]

theorem find?_updateFirstNode (nodes : List NodeState) (nodeId : String)
    (f : NodeState → NodeState) (hf : ∀ n, (f n).id = n.id) :
    ∀ (n : NodeState), nodes.find? (fun m => m.id == nodeId) = some n →
      (updateFirstNode nodes nodeId f).find? (fun m => m.id == nodeId) = some (f n) := by
  induction nodes with
  | nil => intro n h; simp [List.find?] at h
  | cons m rest ih =>
    intro n h
    cases hm : (m.id == nodeId) with
    | true =>
      rw [List.find?_cons, hm] at h
      have hn : m = n := by injection h
      subst hn
      rw [updateFirstNode, if_pos hm, List.find?_cons,
        show ((f m).id == nodeId) = true by rw [hf m]; exact hm]
    | false =>
      rw [List.find?_cons, hm] at h
      rw [updateFirstNode, if_neg (by simp [hm]), List.find?_cons, hm]
      exact ih n h

theorem updateFirstNode_not_found (nodes : List NodeState) (nodeId : String)
    (f : NodeState → NodeState)
    (h : nodes.find? (fun m => m.id == nodeId) = none) :
    updateFirstNode nodes nodeId f = nodes := by
  induction nodes with
  | nil => rfl
  | cons m rest ih =>
    cases hm : (m.id == nodeId) with
    | true => rw [List.find?_cons, hm] at h; cases h
    | false =>
      rw [List.find?_cons, hm] at h
      rw [updateFirstNode, if_neg (by simp [hm]), ih h]

theorem removeFirstNode_not_found (nodes : List NodeState) (nodeId : String)
    (h : nodes.find? (fun m => m.id == nodeId) = none) :
    removeFirstNode nodes nodeId = nodes := by
  induction nodes with
  | nil => rfl
  | cons m rest ih =>
    cases hm : (m.id == nodeId) with
    | true => rw [List.find?_cons, hm] at h; cases h
    | false =>
      rw [List.find?_cons, hm] at h
      rw [removeFirstNode, if_neg (by simp [hm]), ih h]

theorem toggleNodeCollapse_found (s : WorkflowState) (nodeId : String) (n : NodeState)
    (h : s.nodes.find? (fun m => m.id == nodeId) = some n) :
    toggleNodeCollapse s nodeId =
      Except.ok ({ s with nodes := updateFirstNode s.nodes nodeId toggleNode },
        (toggleNode n).size, (toggleNode n).isCollapsed) := by
  simp [toggleNodeCollapse, h]

theorem toggleNode_toggleNode_size (n : NodeState) (h : n.isCollapsed = false) :
    (toggleNode (toggleNode n)).size = n.size := by
  simp [toggleNode, h]

/-! ### Concrete fixtures used by witnesses and counterexamples -/

/-- A single available node with numeric id "1" backed by `/workflows/a.md`. -/
def exNode : NodeState :=
  { id := "1", position := { x := 50, y := 50 }, size := { width := 250, height := 200 },
    isCollapsed := true, expandedSize := none,
    minDimensions := { width := 250, height := 200, collapsedWidth := 180, collapsedHeight := 50 },
    data := { label := "A", markdownPath := "/workflows/a.md" }, isOrphaned := false }

/-- A one-node graph. -/
def exGraph : WorkflowState :=
  { nodes := [exNode], edges := [], lastSaved := "", version := "1.0.0" }

/-- The empty graph. -/
def emptyGraph : WorkflowState :=
  { nodes := [], edges := [], lastSaved := "", version := "1.0.0" }

/-- An expanded node with size 300x250, as in the collapse/expand example. -/
def exNodeExpanded : NodeState :=
  { id := "7", position := { x := 0, y := 0 }, size := { width := 300, height := 250 },
    isCollapsed := false, expandedSize := some { width := 300, height := 250 },
    minDimensions := { width := 250, height := 200, collapsedWidth := 180, collapsedHeight := 50 },
    data := { label := "X", markdownPath := "/workflows/x.md" }, isOrphaned := false }

/-- A one-node graph holding the expanded node. -/
def exGraph2 : WorkflowState :=
  { nodes := [exNodeExpanded], edges := [], lastSaved := "", version := "1.0.0" }

/-- A node whose id is 2^53 = 9007199254740992, the first integer at which
the float64 `max + 1` of the id pipeline rounds back down (ties to even). -/
def bigNode : NodeState :=
  { id := "9007199254740992", position := { x := 50, y := 50 },
    size := { width := 250, height := 200 },
    isCollapsed := true, expandedSize := none,
    minDimensions := { width := 250, height := 200, collapsedWidth := 180, collapsedHeight := 50 },
    data := { label := "A", markdownPath := "/workflows/a.md" }, isOrphaned := false }

/-- A one-node graph holding the 2^53 id. -/
def bigGraph : WorkflowState :=
  { nodes := [bigNode], edges := [], lastSaved := "", version := "1.0.0" }

/-! ### Claims -/

/-- C1: the claim says that a failing document-listing call must leave every
cached availability flag unchanged (no mass-orphaning).  The code instead
returns an empty listing from the catch block, so the availability pass runs
against the empty set: here a node that was available (isOrphaned = false)
comes back orphaned after a failed listing, contradicting the claim. -/
theorem c1_listing_failure_marks_orphaned :
    (initializeWorkflowState (some exGraph) (Except.error ()) true "t").map
      (fun g => g.nodes.map (fun n => n.isOrphaned)) = Except.ok [true] := rfl

/-- C2 counterexample: on an empty graph with four discovered documents the
claim places the four new nodes at grid cells (0,0), (1,0), (2,0), (0,1),
i.e. at pixel positions (50,50), (350,50), (650,50), (50,300).  The code
produces (50,50), (650,50), (350,300), (50,550): already the second node
lands at (650,50) ≠ (350,50). -/
theorem c2_counterexample :
    (initializeWorkflowState none (Except.ok ["a.md", "b.md", "c.md", "d.md"]) true "t").map
      (fun g => g.nodes.map (fun n => n.position))
      = Except.ok [{ x := 50, y := 50 }, { x := 650, y := 50 },
                   { x := 350, y := 300 }, { x := 50, y := 550 }]
    ∧ ({ x := 650, y := 50 } : Position) ≠ { x := 350, y := 50 } := ⟨rfl, by decide⟩

/-- C2 (amended): the k-th new node of a batch is placed at grid index
N + 2k (column (N+2k) mod 3, row (N+2k)/3), where N is the node count
before the batch, because the grid index reads the length of the node array
that grows inside the insertion loop. -/
theorem c2_grid_positions_amended : ∀ (g : WorkflowState) (files : List String)
    (writeOk : Bool) (now : String) (g1 : WorkflowState),
    initializeWorkflowState (some g) (Except.ok files) writeOk now = Except.ok g1 →
    (g1.nodes.drop g.nodes.length).map (fun n => n.position)
      = (List.range (newFilesOf (markAvailability files g.nodes) files).length).map
          (fun k => calculateGridPosition (g.nodes.length + 2 * k)) := by
  intro g files writeOk now g1 h
  have hg := initializeWorkflowState_ok _ _ _ _ _ h
  subst hg
  exact reconcileNodes_new_positions g.nodes files

/-- C2 witness: the amended grid law evaluated on the empty graph with four
discovered documents. -/
theorem c2_grid_positions_amended_witness :
    ∃ g1, initializeWorkflowState (some emptyGraph)
        (Except.ok ["a.md", "b.md", "c.md", "d.md"]) true "t" = Except.ok g1
      ∧ (g1.nodes.drop emptyGraph.nodes.length).map (fun n => n.position)
        = (List.range (newFilesOf (markAvailability ["a.md", "b.md", "c.md", "d.md"]
            emptyGraph.nodes) ["a.md", "b.md", "c.md", "d.md"]).length).map
            (fun k => calculateGridPosition (emptyGraph.nodes.length + 2 * k)) :=
  ⟨_, rfl, c2_grid_positions_amended emptyGraph _ true "t" _ rfl⟩

/-- C3: after reconciliation with a successfully obtained listing, every
node's availability (not isOrphaned) equals membership of its document path
in the discovered path set, and newly created nodes are available; both for
initializeWorkflowState and reEnumerateMarkdownFiles. -/
theorem c3_availability : ∀ (files : List String) (writeOk : Bool) (now : String),
    (∀ (g g1 : WorkflowState),
      initializeWorkflowState (some g) (Except.ok files) writeOk now = Except.ok g1 →
      (∀ n ∈ g1.nodes, (n.isOrphaned = false ↔ n.data.markdownPath ∈ discoveredPaths files))
      ∧ (∀ n ∈ g1.nodes.drop g.nodes.length, n.isOrphaned = false))
    ∧ (∀ (s : WorkflowState) (out : WorkflowState × Nat × Nat),
      reEnumerateMarkdownFiles s (Except.ok files) writeOk now = Except.ok out →
      (∀ n ∈ out.1.nodes, (n.isOrphaned = false ↔ n.data.markdownPath ∈ discoveredPaths files))
      ∧ (∀ n ∈ out.1.nodes.drop s.nodes.length, n.isOrphaned = false)) := by
  intro files writeOk now
  constructor
  · intro g g1 h
    have hg := initializeWorkflowState_ok _ _ _ _ _ h
    subst hg
    exact ⟨fun n hn => reconcileNodes_avail_iff g.nodes files n hn,
           fun n hn => reconcileNodes_new_avail g.nodes files n hn⟩
  · intro s out h
    have hg := (reEnumerateMarkdownFiles_ok _ _ _ _ _ h).1
    rw [hg]
    exact ⟨fun n hn => reconcileNodes_avail_iff s.nodes files n hn,
           fun n hn => reconcileNodes_new_avail s.nodes files n hn⟩

/-- C3 witness: availability law evaluated on a one-node graph whose file
disappeared while `b.md` appeared. -/
theorem c3_availability_witness :
    ∃ g1, initializeWorkflowState (some exGraph) (Except.ok ["b.md"]) true "t" = Except.ok g1
      ∧ (∀ n ∈ g1.nodes, (n.isOrphaned = false ↔ n.data.markdownPath ∈ discoveredPaths ["b.md"]))
    := ⟨_, rfl, ((c3_availability ["b.md"] true "t").1 exGraph _ rfl).1⟩

/-- C4: reconciliation is idempotent: a second run with the same discovery
listing returns the same nodes and edges, adds no nodes (the
reEnumerateMarkdownFiles newNodes counter is 0), and changes no node. -/
theorem c4_idempotent : ∀ (g : WorkflowState) (files : List String) (writeOk writeOk2 : Bool)
    (now now2 : String),
    (∀ g1 : WorkflowState,
      initializeWorkflowState (some g) (Except.ok files) writeOk now = Except.ok g1 →
      ∃ g2, initializeWorkflowState (some g1) (Except.ok files) writeOk2 now2 = Except.ok g2
        ∧ g2.nodes = g1.nodes ∧ g2.edges = g1.edges)
    ∧ (∀ (out : WorkflowState × Nat × Nat),
      reEnumerateMarkdownFiles g (Except.ok files) writeOk now = Except.ok out →
      ∃ out2, reEnumerateMarkdownFiles out.1 (Except.ok files) true now2 = Except.ok out2
        ∧ out2.1.nodes = out.1.nodes ∧ out2.1.edges = out.1.edges ∧ out2.2.1 = 0) := by
  intro g files writeOk writeOk2 now now2
  constructor
  · intro g1 h
    have hg := initializeWorkflowState_ok _ _ _ _ _ h
    subst hg
    refine ⟨_, initializeWorkflowState_no_new _ _ writeOk2 now2
      (newFilesOf_reconcile g.nodes files), ?_, rfl⟩
    show reconcileNodes (reconcileNodes g.nodes files) files = reconcileNodes g.nodes files
    exact reconcileNodes_idem g.nodes files
  · intro out h
    rcases out with ⟨o1, k, r⟩
    obtain ⟨h1, _⟩ := reEnumerateMarkdownFiles_ok _ _ _ _ _ h
    simp only at h1
    subst h1
    refine ⟨_, reEnumerateMarkdownFiles_write_ok _ (Except.ok files) now2, ?_, rfl, ?_⟩
    · show reconcileNodes (reconcileNodes g.nodes files) files = reconcileNodes g.nodes files
      exact reconcileNodes_idem g.nodes files
    · show (newFilesOf (markAvailability files (reconcileNodes g.nodes files)) files).length = 0
      rw [newFilesOf_reconcile]
      rfl

/-- C4 witness: idempotence evaluated on a one-node graph and the listing
`["b.md"]`. -/
theorem c4_idempotent_witness :
    ∃ g1 g2,
      initializeWorkflowState (some exGraph) (Except.ok ["b.md"]) true "t" = Except.ok g1 ∧
      initializeWorkflowState (some g1) (Except.ok ["b.md"]) true "t2" = Except.ok g2 ∧
      g2.nodes = g1.nodes ∧ g2.edges = g1.edges := by
  obtain ⟨g2, h2, hn, he⟩ := (c4_idempotent exGraph ["b.md"] true true "t" "t2").1 _ rfl
  exact ⟨_, g2, rfl, h2, hn, he⟩

/-- C5 counterexample: the claim says that when the persistence write fails
the merged graph is still returned.  With one new document and a failing
write, initializeWorkflowState produces only the rethrown error — no graph
value is returned to the caller at all. -/
theorem c5_counterexample :
    initializeWorkflowState none (Except.ok ["a.md"]) false "t"
      = Except.error "Failed to save workflow config" := rfl

/-- C5 (amended): if the persistence write at the end of reconciliation
fails, the failure is surfaced to the caller (the call rejects with the save
error), but the merged graph is not returned: initializeWorkflowState
propagates the error whenever new nodes forced a write, and
reEnumerateMarkdownFiles (which always writes) propagates it always. -/
theorem c5_save_failure_amended : ∀ (config : Option WorkflowState)
    (listing : Except Unit (List String)) (now : String),
    ((newFilesOf (markAvailability (enumerateMarkdownFiles listing) (cfgNodes config))
        (enumerateMarkdownFiles listing)).length > 0 →
      initializeWorkflowState config listing false now
        = Except.error "Failed to save workflow config")
    ∧ (∀ s : WorkflowState, reEnumerateMarkdownFiles s listing false now
        = Except.error "Failed to save workflow config") := by
  intro config listing now
  constructor
  · intro hnf
    simp only [initializeWorkflowState, saveWorkflowConfig]
    rw [if_pos hnf]
    rfl
  · intro s
    rfl

/-- C5 witness: the amended failure law evaluated on the empty config with
one discovered document. -/
theorem c5_save_failure_amended_witness :
    (0 < (newFilesOf (markAvailability (enumerateMarkdownFiles (Except.ok ["a.md"]))
        (cfgNodes none)) (enumerateMarkdownFiles (Except.ok ["a.md"]))).length)
    ∧ initializeWorkflowState none (Except.ok ["a.md"]) false "t"
        = Except.error "Failed to save workflow config"
    ∧ reEnumerateMarkdownFiles emptyGraph (Except.ok ["a.md"]) false "t"
        = Except.error "Failed to save workflow config" :=
  ⟨by decide, (c5_save_failure_amended none (Except.ok ["a.md"]) "t").1 (by decide),
   (c5_save_failure_amended none (Except.ok ["a.md"]) "t").2 emptyGraph⟩

/-- C6: collapse-then-expand is a round trip on node size: for a node
present in the state and currently expanded, two successive
toggleNodeCollapse calls restore its exact pre-collapse size. -/
theorem c6_collapse_expand_roundtrip : ∀ (s : WorkflowState) (nodeId : String) (n : NodeState),
    s.nodes.find? (fun m => m.id == nodeId) = some n →
    n.isCollapsed = false →
    ∃ s1 r1 s2 r2,
      toggleNodeCollapse s nodeId = Except.ok (s1, r1) ∧
      toggleNodeCollapse s1 nodeId = Except.ok (s2, r2) ∧
      ∃ n2, s2.nodes.find? (fun m => m.id == nodeId) = some n2 ∧ n2.size = n.size := by
  intro s nodeId n hfind hexp
  have hfind1 : (updateFirstNode s.nodes nodeId toggleNode).find? (fun m => m.id == nodeId)
      = some (toggleNode n) :=
    find?_updateFirstNode s.nodes nodeId toggleNode toggleNode_id n hfind
  have hfind2 : (updateFirstNode (updateFirstNode s.nodes nodeId toggleNode) nodeId
      toggleNode).find? (fun m => m.id == nodeId) = some (toggleNode (toggleNode n)) :=
    find?_updateFirstNode _ nodeId toggleNode toggleNode_id _ hfind1
  exact ⟨_, _, _, _, toggleNodeCollapse_found s nodeId n hfind,
    toggleNodeCollapse_found _ nodeId (toggleNode n) hfind1,
    toggleNode (toggleNode n), hfind2, toggleNode_toggleNode_size n hexp⟩

/-- C6 witness: the round trip evaluated on an expanded node of size
300x250, whose size is restored exactly. -/
theorem c6_collapse_expand_roundtrip_witness :
    ∃ s1 r1 s2 r2,
      toggleNodeCollapse exGraph2 "7" = Except.ok (s1, r1) ∧
      toggleNodeCollapse s1 "7" = Except.ok (s2, r2) ∧
      ∃ n2, s2.nodes.find? (fun m => m.id == "7") = some n2
        ∧ n2.size = exNodeExpanded.size :=
  c6_collapse_expand_roundtrip exGraph2 "7" exNodeExpanded rfl rfl

/-- C7 counterexample: the claim says the first new id is the string of an
integer strictly greater than the maximum numeric-parseable existing id.
With existing id 2^53 = 9007199254740992 the float64 `max + 1` rounds back
to 2^53 (ties to even), so the new node is assigned the very same id
string, whose numeric value equals (does not exceed) the existing maximum. -/
theorem c7_counterexample :
    jsParseInt bigNode.id = some 9007199254740992
    ∧ (initializeWorkflowState (some bigGraph) (Except.ok ["a.md", "b.md"]) true "t").map
        (fun g => (g.nodes.drop bigGraph.nodes.length).map (fun n => n.id))
      = Except.ok [bigNode.id] := ⟨rfl, rfl⟩

/-- C7 (amended): provided every numeric-parseable existing id v keeps
|v| + batch size below 2^53 (and the batch itself is smaller than 2^53), so
that the float64 id arithmetic is exact: nextNodeId is strictly greater
than every numeric-parseable existing id, equals that maximum plus one when
a numeric id exists, is 1 when none exists, and the batch of new nodes
receives the consecutive ids nextNodeId, nextNodeId+1, ... rendered in
decimal, in the iteration order of the novel-file sequence; for both entry
points.  At and beyond 2^53 the `+ 1` and per-node additions can round back
(c7_counterexample). -/
theorem c7_id_assignment_amended : ∀ (files : List String) (writeOk : Bool) (now : String),
    (∀ (g g1 : WorkflowState),
      initializeWorkflowState (some g) (Except.ok files) writeOk now = Except.ok g1 →
      parsedIdsSmall g.nodes (newFilesOf (markAvailability files g.nodes) files).length →
      (∀ n ∈ g.nodes, ∀ v, jsParseInt n.id = some v → v < nextNodeId g.nodes)
      ∧ ((∃ n ∈ g.nodes, ∃ v, jsParseInt n.id = some v) →
          ∃ n ∈ g.nodes, jsParseInt n.id = some (nextNodeId g.nodes - 1))
      ∧ ((∀ n ∈ g.nodes, jsParseInt n.id = none) → nextNodeId g.nodes = 1)
      ∧ (g1.nodes.drop g.nodes.length).map (fun n => n.id)
          = (List.range (newFilesOf (markAvailability files g.nodes) files).length).map
              (fun (k : Nat) => intToString (nextNodeId g.nodes + (k : Int))))
    ∧ (∀ (s : WorkflowState) (out : WorkflowState × Nat × Nat),
      reEnumerateMarkdownFiles s (Except.ok files) writeOk now = Except.ok out →
      parsedIdsSmall s.nodes (newFilesOf (markAvailability files s.nodes) files).length →
      (out.1.nodes.drop s.nodes.length).map (fun n => n.id)
        = (List.range (newFilesOf (markAvailability files s.nodes) files).length).map
            (fun (k : Nat) => intToString (nextNodeId s.nodes + (k : Int)))) := by
  intro files writeOk now
  constructor
  · intro g g1 h hsmall
    have hg := initializeWorkflowState_ok _ _ _ _ _ h
    subst hg
    have heq := nextNodeId_eq_exact g.nodes _ hsmall
    refine ⟨?_, ?_, fun hnone => nextNodeId_of_no_numeric g.nodes hnone, ?_⟩
    · intro n hn v hv
      have := parsed_lt_nextNodeIdExact g.nodes n hn v hv
      omega
    · intro hex
      obtain ⟨n, hn, hp⟩ := nextNodeIdExact_attained g.nodes hex
      exact ⟨n, hn, by rw [heq]; exact hp⟩
    · exact reconcileNodes_new_ids_small g.nodes files hsmall
  · intro s out h hsmall
    have hg := (reEnumerateMarkdownFiles_ok _ _ _ _ _ h).1
    rw [hg]
    exact reconcileNodes_new_ids_small s.nodes files hsmall

/-- C7 witness: amended id assignment evaluated on a graph with existing id
"1" and one novel document, which receives id "2". -/
theorem c7_id_assignment_amended_witness :
    ∃ g1, initializeWorkflowState (some exGraph) (Except.ok ["a.md", "b.md"]) true "t"
        = Except.ok g1
      ∧ (g1.nodes.drop exGraph.nodes.length).map (fun n => n.id)
        = (List.range (newFilesOf (markAvailability ["a.md", "b.md"] exGraph.nodes)
            ["a.md", "b.md"]).length).map
            (fun (k : Nat) => intToString (nextNodeId exGraph.nodes + (k : Int))) :=
  ⟨_, rfl,
    ((c7_id_assignment_amended ["a.md", "b.md"] true "t").1 exGraph _ rfl (by decide)).2.2.2⟩

/-- C8 counterexample: the claim says distinct input ids stay distinct.
With the single existing id 2^53 = 9007199254740992 (pairwise distinct) and
one novel document, the float64 `max + 1` rounds back to 2^53 and the new
node receives the identical id string: the output ids are not pairwise
distinct. -/
theorem c8_counterexample :
    (bigGraph.nodes.map (fun n => n.id)).Nodup
    ∧ (initializeWorkflowState (some bigGraph) (Except.ok ["a.md", "b.md"]) true "t").map
        (fun g => g.nodes.map (fun n => n.id))
      = Except.ok ["9007199254740992", "9007199254740992"]
    ∧ ¬ (["9007199254740992", "9007199254740992"] : List String).Nodup :=
  ⟨by decide, rfl, by decide⟩

/-- C8 (amended): for every input graph with pairwise distinct node ids
whose numeric-parseable ids keep |v| + batch size below 2^53 (batch itself
below 2^53, so the float64 id arithmetic is exact) and every discovery
listing, all node ids of the reconciled graph are pairwise distinct; for
both entry points.  At 2^53 the generated id can collide with an existing
one (c8_counterexample). -/
theorem c8_id_uniqueness_amended : ∀ (files : List String) (writeOk : Bool) (now : String),
    (∀ (g g1 : WorkflowState),
      initializeWorkflowState (some g) (Except.ok files) writeOk now = Except.ok g1 →
      parsedIdsSmall g.nodes (newFilesOf (markAvailability files g.nodes) files).length →
      (g.nodes.map (fun n => n.id)).Nodup → (g1.nodes.map (fun n => n.id)).Nodup)
    ∧ (∀ (s : WorkflowState) (out : WorkflowState × Nat × Nat),
      reEnumerateMarkdownFiles s (Except.ok files) writeOk now = Except.ok out →
      parsedIdsSmall s.nodes (newFilesOf (markAvailability files s.nodes) files).length →
      (s.nodes.map (fun n => n.id)).Nodup → (out.1.nodes.map (fun n => n.id)).Nodup) := by
  intro files writeOk now
  constructor
  · intro g g1 h hsmall hd
    have hg := initializeWorkflowState_ok _ _ _ _ _ h
    subst hg
    exact reconcileNodes_nodup_small g.nodes files hsmall hd
  · intro s out h hsmall hd
    have hg := (reEnumerateMarkdownFiles_ok _ _ _ _ _ h).1
    rw [hg]
    exact reconcileNodes_nodup_small s.nodes files hsmall hd

/-- C8 witness: amended id uniqueness evaluated on a one-node graph gaining
one new node. -/
theorem c8_id_uniqueness_amended_witness :
    ∃ g1, initializeWorkflowState (some exGraph) (Except.ok ["a.md", "b.md"]) true "t"
        = Except.ok g1
      ∧ (g1.nodes.map (fun n => n.id)).Nodup :=
  ⟨_, rfl,
    (c8_id_uniqueness_amended ["a.md", "b.md"] true "t").1 exGraph _ rfl (by decide) (by decide)⟩

/-- C9 counterexample: the claim says every state-manager operation on an
absent node id fails loudly.  updateNodePosition addressed at the absent id
"99" silently returns the state unchanged, reporting nothing. -/
theorem c9_counterexample :
    (exGraph.nodes.map (fun n => n.id)).contains "99" = false
    ∧ updateNodePosition exGraph "99" { x := 0, y := 0 } = exGraph := ⟨rfl, rfl⟩

/-- C9 (amended): only toggleNodeCollapse fails loudly (throws) on a node id
absent from the graph; updateNodePosition, updateNodeSize,
updateNodeMinDimensions and removeNode silently no-op, returning the state
unchanged. -/
theorem c9_absent_id_amended : ∀ (s : WorkflowState) (nodeId : String),
    s.nodes.find? (fun m => m.id == nodeId) = none →
    (∃ e, toggleNodeCollapse s nodeId = Except.error e)
    ∧ (∀ p, updateNodePosition s nodeId p = s)
    ∧ (∀ sz, updateNodeSize s nodeId sz = s)
    ∧ (∀ d, updateNodeMinDimensions s nodeId d = s)
    ∧ removeNode s nodeId = s := by
  intro s nodeId h
  refine ⟨⟨"Node " ++ nodeId ++ " not found in state", by simp [toggleNodeCollapse, h]⟩,
    ?_, ?_, ?_, ?_⟩
  · intro p
    simp only [updateNodePosition]
    rw [updateFirstNode_not_found _ _ _ h]
  · intro sz
    simp only [updateNodeSize]
    rw [updateFirstNode_not_found _ _ _ h]
  · intro d
    simp only [updateNodeMinDimensions]
    rw [updateFirstNode_not_found _ _ _ h]
  · simp only [removeNode]
    rw [removeFirstNode_not_found _ _ h]

/-- C9 witness: the amended behaviour evaluated at the absent id "99" on a
one-node graph. -/
theorem c9_absent_id_amended_witness :
    exGraph.nodes.find? (fun m => m.id == "99") = none
    ∧ (∃ e, toggleNodeCollapse exGraph "99" = Except.error e)
    ∧ updateNodePosition exGraph "99" { x := 1, y := 2 } = exGraph
    ∧ updateNodeSize exGraph "99" { width := 10, height := 10 } = exGraph
    ∧ updateNodeMinDimensions exGraph "99"
        { width := 1, height := 1, collapsedWidth := 1, collapsedHeight := 1 } = exGraph
    ∧ removeNode exGraph "99" = exGraph :=
  ⟨rfl, (c9_absent_id_amended exGraph "99" rfl).1,
   (c9_absent_id_amended exGraph "99" rfl).2.1 _,
   (c9_absent_id_amended exGraph "99" rfl).2.2.1 _,
   (c9_absent_id_amended exGraph "99" rfl).2.2.2.1 _,
   (c9_absent_id_amended exGraph "99" rfl).2.2.2.2⟩

/-- C10: resizing a collapsed node updates its displayed size but leaves the
remembered expandedSize unchanged; resizing an expanded node updates
expandedSize; hence collapse, resize-while-collapsed, expand restores the
size current at collapse time, ignoring the collapsed resize. -/
theorem c10_resize_collapsed : ∀ (s : WorkflowState) (nodeId : String) (n : NodeState)
    (sz : Size),
    s.nodes.find? (fun m => m.id == nodeId) = some n →
    ((n.isCollapsed = true →
      ∃ n1, (updateNodeSize s nodeId sz).nodes.find? (fun m => m.id == nodeId) = some n1
        ∧ n1.size = sz ∧ n1.expandedSize = n.expandedSize)
    ∧ (n.isCollapsed = false →
      ∃ n1, (updateNodeSize s nodeId sz).nodes.find? (fun m => m.id == nodeId) = some n1
        ∧ n1.size = sz ∧ n1.expandedSize = some sz)
    ∧ (n.isCollapsed = false →
      ∃ s1 r1 s3 r3 n3,
        toggleNodeCollapse s nodeId = Except.ok (s1, r1) ∧
        toggleNodeCollapse (updateNodeSize s1 nodeId sz) nodeId = Except.ok (s3, r3) ∧
        s3.nodes.find? (fun m => m.id == nodeId) = some n3 ∧ n3.size = n.size)) := by
  intro s nodeId n sz hfind
  have hfindsz : (updateFirstNode s.nodes nodeId (resizeNode sz)).find?
      (fun m => m.id == nodeId) = some (resizeNode sz n) :=
    find?_updateFirstNode s.nodes nodeId (resizeNode sz) (resizeNode_id sz) n hfind
  refine ⟨?_, ?_, ?_⟩
  · intro hc
    exact ⟨resizeNode sz n, hfindsz, by simp [resizeNode, hc], by simp [resizeNode, hc]⟩
  · intro hc
    exact ⟨resizeNode sz n, hfindsz, by simp [resizeNode, hc], by simp [resizeNode, hc]⟩
  · intro hc
    have hfind1 : (updateFirstNode s.nodes nodeId toggleNode).find? (fun m => m.id == nodeId)
        = some (toggleNode n) :=
      find?_updateFirstNode _ _ _ toggleNode_id n hfind
    have hfind2 : (updateFirstNode (updateFirstNode s.nodes nodeId toggleNode) nodeId
        (resizeNode sz)).find? (fun m => m.id == nodeId)
        = some (resizeNode sz (toggleNode n)) :=
      find?_updateFirstNode _ _ _ (resizeNode_id sz) _ hfind1
    have hfind3 : (updateFirstNode (updateFirstNode (updateFirstNode s.nodes nodeId toggleNode)
        nodeId (resizeNode sz)) nodeId toggleNode).find? (fun m => m.id == nodeId)
        = some (toggleNode (resizeNode sz (toggleNode n))) :=
      find?_updateFirstNode _ _ _ toggleNode_id _ hfind2
    refine ⟨_, _, _, _, toggleNode (resizeNode sz (toggleNode n)),
      toggleNodeCollapse_found s nodeId n hfind,
      toggleNodeCollapse_found _ nodeId (resizeNode sz (toggleNode n)) hfind2, hfind3, ?_⟩
    simp [toggleNode, resizeNode, hc]

/-- C10 witness: collapse, resize to 111x222 while collapsed, expand: the
size 300x250 current at collapse time is restored. -/
theorem c10_resize_collapsed_witness :
    ∃ s1 r1 s3 r3 n3,
      toggleNodeCollapse exGraph2 "7" = Except.ok (s1, r1) ∧
      toggleNodeCollapse (updateNodeSize s1 "7" { width := 111, height := 222 }) "7"
        = Except.ok (s3, r3) ∧
      s3.nodes.find? (fun m => m.id == "7") = some n3 ∧ n3.size = exNodeExpanded.size :=
  (c10_resize_collapsed exGraph2 "7" exNodeExpanded { width := 111, height := 222 } rfl).2.2 rfl

end Siren
